import Mathlib

/-!
Verification of `pre_commit_python_eol/check_eol.py`

A shallow embedding of the EOL-check core: the release dataset model
(`PythonRelease`, `is_eol`), the EOL date parser (`_parse_eol_date`), the
dataset loader (`_get_cached_release_cycle`), specifier containment and repair
(`get_fixed_spec`), the per-file check (`check_python_support`) and the
orchestration loop (`main`).

Modelling conventions:
* Python strings are Lean `String`s; character-level work is done on `List Char`.
* `datetime.date` is modelled by `Date` (year/month/day as `Nat`), compared
  lexicographically, exactly as Python compares dates.
* `packaging.version.Version` is modelled by its release segment list
  (`PyVersion`); epoch / pre / post / dev segments are not modelled — the
  release-cycle dataset only carries plain `X.Y` versions.  Comparison pads the
  shorter release tuple with zeros, as `packaging` does.
* The ambient clock (`datetime.datetime.now(dt.timezone.utc).date()`) is passed
  in explicitly as a `utc_today : Date` parameter.
* Exceptions become `Option` / `Except` / explicit result constructors.
-/
/-- Componentwise-zero test, used to pad release tuples. -/
def allZero (l : List Nat) : Bool := l.all (fun x => x = 0)

/--
Comparison of `packaging` release segment lists: compare componentwise,
padding the shorter list with zeros (so `[3, 8]` and `[3, 8, 0]` are equal).
-/
def cmpRelease : List Nat → List Nat → Ordering
  | [], bs => if allZero bs then .eq else .lt
  | a :: as', [] => if allZero (a :: as') then .eq else .gt
  | a :: as', b :: bs =>
    if a < b then .lt else if b < a then .gt else cmpRelease as' bs

@[simp] theorem cmpRelease_nil (bs : List Nat) :
    cmpRelease [] bs = if allZero bs then .eq else .lt := rfl

@[simp] theorem cmpRelease_cons_nil (a : Nat) (as' : List Nat) :
    cmpRelease (a :: as') [] = if allZero (a :: as') then .eq else .gt := rfl

@[simp] theorem cmpRelease_cons_cons (a b : Nat) (as' bs : List Nat) :
    cmpRelease (a :: as') (b :: bs) =
      if a < b then .lt else if b < a then .gt else cmpRelease as' bs := rfl

theorem cmpRelease_nil_ne_gt (b : List Nat) : cmpRelease [] b ≠ .gt := by
  by_cases h : allZero b = true <;> simp [h]

/-- An all-zero release tuple is a lower bound. -/
theorem allZero_le : ∀ a c, allZero a = true → cmpRelease a c ≠ .gt
  | [], c, _ => cmpRelease_nil_ne_gt c
  | a :: as', [], h => by simp [h]
  | a :: as', c :: cs, h => by
    simp only [allZero, List.all_cons, Bool.and_eq_true, decide_eq_true_eq] at h
    obtain ⟨rfl, has⟩ := h
    by_cases hc : 0 < c
    · simp [hc]
    · have hc0 : c = 0 := Nat.eq_zero_of_not_pos hc
      subst hc0
      simpa using allZero_le as' cs (by simpa [allZero] using has)

/-- Anything below an all-zero release tuple is itself all zero. -/
theorem le_allZero : ∀ a b, allZero b = true → cmpRelease a b ≠ .gt → allZero a = true
  | [], _, _, _ => rfl
  | a :: as', [], _, h2 => by
    by_cases hz : allZero (a :: as') = true
    · exact hz
    · simp [hz] at h2
  | a :: as', b :: bs, h1, h2 => by
    simp only [allZero, List.all_cons, Bool.and_eq_true, decide_eq_true_eq] at h1
    obtain ⟨rfl, hbs⟩ := h1
    have ha : a = 0 := by
      by_contra hne
      have hpos : 0 < a := Nat.pos_of_ne_zero hne
      simp [hpos, Nat.not_lt_zero] at h2
    subst ha
    simp only [cmpRelease_cons_cons, Nat.lt_irrefl, if_neg (Nat.lt_irrefl 0)] at h2
    have := le_allZero as' bs (by simpa [allZero] using hbs) (by simpa using h2)
    simpa [allZero] using this

theorem cmpRelease_swap : ∀ a b, (cmpRelease a b).swap = cmpRelease b a
  | [], [] => by simp [allZero, Ordering.swap]
  | [], b :: bs => by
    by_cases hb : allZero (b :: bs) = true <;> simp [hb, Ordering.swap]
  | a :: as', [] => by
    by_cases ha : allZero (a :: as') = true <;> simp [ha, Ordering.swap]
  | a :: as', b :: bs => by
    rcases Nat.lt_trichotomy a b with h | h | h
    · have h' : ¬ b < a := Nat.lt_asymm h
      simp [h, h', Ordering.swap]
    · subst h
      simpa [Nat.lt_irrefl] using cmpRelease_swap as' bs
    · have h' : ¬ a < b := Nat.lt_asymm h
      simp [h, h', Ordering.swap]

theorem cmpRelease_le_trans : ∀ a b c,
    cmpRelease a b ≠ .gt → cmpRelease b c ≠ .gt → cmpRelease a c ≠ .gt
  | [], _, c, _, _ => cmpRelease_nil_ne_gt c
  | a :: as', [], c, h1, _ => by
    have hz : allZero (a :: as') = true := by
      by_contra hne
      simp [hne] at h1
    exact allZero_le _ c hz
  | a :: as', b :: bs, [], h1, h2 => by
    have hz : allZero (b :: bs) = true := by
      by_contra hne
      simp [hne] at h2
    have := le_allZero (a :: as') (b :: bs) hz h1
    simp [this]
  | a :: as', b :: bs, c :: cs, h1, h2 => by
    simp only [cmpRelease_cons_cons] at h1 h2 ⊢
    by_cases hac : a < c
    · simp [hac]
    · have hab : ¬ b < a := by
        intro hba
        simp [Nat.lt_asymm hba, hba] at h1
      have hbc : ¬ c < b := by
        intro hcb
        simp [Nat.lt_asymm hcb, hcb] at h2
      have hab2 : a = b := by
        by_cases h : a < b
        · exfalso
          by_cases h' : b < c
          · exact hac (Nat.lt_trans h h')
          · have hbc2 : b = c := Nat.le_antisymm (Nat.le_of_not_lt hbc) (Nat.le_of_not_lt h')
            exact hac (hbc2 ▸ h)
        · exact Nat.le_antisymm (Nat.le_of_not_lt hab) (Nat.le_of_not_lt h)
      subst hab2
      have hac2 : a = c := Nat.le_antisymm (Nat.le_of_not_lt hbc) (Nat.le_of_not_lt hac)
      subst hac2
      simp only [Nat.lt_irrefl, if_neg (Nat.lt_irrefl a)] at h1 h2 ⊢
      exact cmpRelease_le_trans as' bs cs h1 h2

theorem cmpRelease_le_total (a b : List Nat) :
    cmpRelease a b ≠ .gt ∨ cmpRelease b a ≠ .gt := by
  by_cases h : cmpRelease a b = .gt
  · right
    rw [← cmpRelease_swap a b, h]
    simp [Ordering.swap]
  · exact Or.inl h

/--
Model of `packaging.version.Version` restricted to its release segments
(`Version("3.8").release == (3, 8)`).  The dataset and the specifiers in scope
use plain numeric dotted versions, so epoch / pre / post / dev / local
segments are not modelled.
-/
structure PyVersion where
  release : List Nat
deriving DecidableEq

/-- `Version.major`: the first release component, `0` when absent. -/
def PyVersion.major (v : PyVersion) : Nat := v.release.headD 0

/-- `Version.minor`: the second release component, `0` when absent. -/
def PyVersion.minor (v : PyVersion) : Nat := v.release.getD 1 0

def verCmp (a b : PyVersion) : Ordering := cmpRelease a.release b.release

/-- Version order `a <= b`, as used by `sorted` / `list.sort` via `Version.__lt__`. -/
def verLe (a b : PyVersion) : Bool :=
  match verCmp a b with
  | .gt => false
  | _ => true

theorem verLe_iff (a b : PyVersion) : verLe a b = true ↔ verCmp a b ≠ .gt := by
  unfold verLe
  cases h : verCmp a b <;> simp [h]

theorem verLe_trans {a b c : PyVersion} (h1 : verLe a b = true) (h2 : verLe b c = true) :
    verLe a c = true := by
  rw [verLe_iff] at h1 h2 ⊢
  exact cmpRelease_le_trans _ _ _ h1 h2

theorem verLe_total (a b : PyVersion) : verLe a b = true ∨ verLe b a = true := by
  rw [verLe_iff, verLe_iff]
  exact cmpRelease_le_total a.release b.release

/-- Model of `datetime.date`: a plain year/month/day triple. -/
structure Date where
  year : Nat
  month : Nat
  day : Nat
deriving DecidableEq

/-- `datetime.date` comparison: lexicographic on (year, month, day). -/
def dateLe (a b : Date) : Bool :=
  decide (a.year < b.year) ||
    (decide (a.year = b.year) &&
      (decide (a.month < b.month) ||
        (decide (a.month = b.month) && decide (a.day ≤ b.day))))

/-- Day count of a month, Gregorian calendar, as validated by the
`datetime.date` constructor. -/
def daysInMonth (y m : Nat) : Nat :=
  if m = 2 then
    if y % 4 = 0 ∧ (y % 100 ≠ 0 ∨ y % 400 = 0) then 29 else 28
  else if m = 4 ∨ m = 6 ∨ m = 9 ∨ m = 11 then 30
  else 31

/-- Validity check performed by the `datetime.date` constructor
(`MINYEAR = 1`, `MAXYEAR = 9999`). -/
def isValidDate (y m d : Nat) : Bool :=
  decide (1 ≤ y) && decide (y ≤ 9999) && decide (1 ≤ m) && decide (m ≤ 12) &&
    decide (1 ≤ d) && decide (d ≤ daysInMonth y m)

/-- `ReleasePhase` (`StrEnum`): the PEP 602 status vocabulary. -/
inductive ReleasePhase
  | feature
  | prerelease
  | bugfix
  | security
  | eol
deriving DecidableEq

/-- `ReleasePhase(s)` construction from the raw `status` string; an unknown
string raises `ValueError` (modelled as `none`). -/
def parsePhase (s : String) : Option ReleasePhase :=
  if s = "feature" then some .feature
  else if s = "prerelease" then some .prerelease
  else if s = "bugfix" then some .bugfix
  else if s = "security" then some .security
  else if s = "end-of-life" then some .eol
  else none

/-- The frozen dataclass `PythonRelease`. -/
structure PythonRelease where
  python_ver : PyVersion
  status : ReleasePhase
  end_of_life : Date
deriving DecidableEq

/--
`PythonRelease.is_eol`: explicitly EOL phase wins; otherwise, when
`use_system_date` is set, compare the stored EOL date against the current UTC
date (passed in as `utc_today`).
-/
def PythonRelease.is_eol (r : PythonRelease) (use_system_date : Bool) (utc_today : Date) : Bool :=
  if r.status = ReleasePhase.eol then true
  else if use_system_date then
    if dateLe r.end_of_life utc_today then true else false
  else false

/-- Value of an ASCII digit character, `none` for any other character. -/
def digitVal (c : Char) : Option Nat :=
  if '0' ≤ c ∧ c ≤ '9' then some (c.toNat - 48) else none

/-- Accumulating decimal parse over characters; fails on a non-digit. -/
def parseDigitsAux : List Char → Nat → Option Nat
  | [], acc => some acc
  | c :: cs, acc =>
    match digitVal c with
    | some d => parseDigitsAux cs (10 * acc + d)
    | none => none

/--
Model of Python `int(s)` for the inputs in scope: a non-empty run of ASCII
decimal digits.  (Python's extra leniency — surrounding whitespace, a sign,
underscore separators, non-ASCII digits — is not modelled; no theorem below
depends on those inputs.)
-/
def parseDigits (cs : List Char) : Option Nat :=
  match cs with
  | [] => none
  | _ => parseDigitsAux cs 0

/-- `str.split("-")`: split a character list on `'-'`; the empty string
yields one empty part, like Python's `"".split("-") == [""]`. -/
def splitDash : List Char → List (List Char)
  | [] => [[]]
  | c :: cs =>
    let r := splitDash cs
    if c = '-' then [] :: r
    else
      match r with
      | [] => [[c]]
      | p :: ps => (c :: p) :: ps

/--
Model of `datetime.date.fromisoformat` restricted to the dashed
`YYYY-MM-DD` profile (4+2+2 zero-padded digits and a valid Gregorian date).
The call site guarantees the input contains exactly two dashes; the other
ISO 8601 profiles accepted by CPython at two dashes (week dates such as
`2023-W01-1`) are outside the dataset's value space and are not modelled.
-/
def fromISO (s : List Char) : Option Date :=
  match s with
  | [y1, y2, y3, y4, s1, m1, m2, s2, d1, d2] =>
    if s1 = '-' ∧ s2 = '-' then
      match digitVal y1, digitVal y2, digitVal y3, digitVal y4,
            digitVal m1, digitVal m2, digitVal d1, digitVal d2 with
      | some a, some b, some c, some d, some e, some f, some g, some h =>
        let y := 1000 * a + 100 * b + 10 * c + d
        let mo := 10 * e + f
        let da := 10 * g + h
        if isValidDate y mo da then some ⟨y, mo, da⟩ else none
      | _, _, _, _, _, _, _, _ => none
    else none
  | _ => none

/--
`_parse_eol_date`: split on `"-"`; three parts are handed to
`date.fromisoformat` on the whole string, two parts are parsed as
`int` year / `int` month with day 1 (the `dt.date` constructor validates
ranges), anything else raises `ValueError` (the spec's `MalformedDateError`),
modelled as `none`.
-/
def _parse_eol_date (date_str : String) : Option Date :=
  let parts := splitDash date_str.toList
  match parts with
  | [_, _, _] => fromISO date_str.toList
  | [p1, p2] =>
    match parseDigits p1, parseDigits p2 with
    | some year, some month =>
      if isValidDate year month 1 then some ⟨year, month, 1⟩ else none
    | _, _ => none
  | _ => none

/-- `str.split(".")` for version strings. -/
def splitDot : List Char → List (List Char)
  | [] => [[]]
  | c :: cs =>
    let r := splitDot cs
    if c = '.' then [] :: r
    else
      match r with
      | [] => [[c]]
      | p :: ps => (c :: p) :: ps

/-- Parse each dot-separated component of a version string as a digit run. -/
def parseReleaseParts : List (List Char) → Option (List Nat)
  | [] => some []
  | p :: ps =>
    match parseDigits p, parseReleaseParts ps with
    | some n, some ns => some (n :: ns)
    | _, _ => none

/--
Model of `packaging.version.Version(ver)` for the canonical numeric dotted
strings the release-cycle dataset uses: every dot-separated component must be
a digit run.  Any other string raises `InvalidVersion`, modelled as `none`.
-/
def parseVersion (s : String) : Option PyVersion :=
  (parseReleaseParts (splitDot s.toList)).map PyVersion.mk

/-- The metadata object of one release-cycle entry (`status` + `end_of_life`). -/
structure Metadata where
  status : String
  end_of_life : String
deriving DecidableEq

/--
`PythonRelease.from_json`: parse the version key, the `status` string through
`ReleasePhase(...)` and the `end_of_life` string through `_parse_eol_date`;
any failure aborts construction (the spec's `MalformedEntryError`).
-/
def PythonRelease.from_json (ver : String) (metadata : Metadata) : Option PythonRelease :=
  match parseVersion ver, parsePhase metadata.status, _parse_eol_date metadata.end_of_life with
  | some v, some p, some d => some ⟨v, p, d⟩
  | _, _, _ => none

/-- The generator `(PythonRelease.from_json(v, m) for v, m in contents.items())`:
all entries must construct, otherwise the whole load fails. -/
def loadReleases : List (String × Metadata) → Option (List PythonRelease)
  | [] => some []
  | (v, m) :: rest =>
    match PythonRelease.from_json v m, loadReleases rest with
    | some r, some rs => some (r :: rs)
    | _, _ => none

/-- Ascending order on releases by `python_ver` (`key=attrgetter("python_ver")`). -/
def relAsc (a b : PythonRelease) : Prop := verLe a.python_ver b.python_ver = true

/-- Descending order on releases by `python_ver` (`reverse=True`). -/
def relDesc (a b : PythonRelease) : Prop := verLe b.python_ver a.python_ver = true

instance : DecidableRel relAsc := fun a b =>
  inferInstanceAs (Decidable (verLe a.python_ver b.python_ver = true))

instance : DecidableRel relDesc := fun a b =>
  inferInstanceAs (Decidable (verLe b.python_ver a.python_ver = true))

instance : IsTrans PythonRelease relAsc := ⟨fun _ _ _ h1 h2 => verLe_trans h1 h2⟩

instance : IsTrans PythonRelease relDesc := ⟨fun _ _ _ h1 h2 => verLe_trans h2 h1⟩

instance : IsTotal PythonRelease relAsc := ⟨fun a b => verLe_total a.python_ver b.python_ver⟩

instance : IsTotal PythonRelease relDesc := ⟨fun a b => (verLe_total a.python_ver b.python_ver).symm⟩

/--
`_get_cached_release_cycle`: construct every entry, then sort by version in
descending order (`sorted(..., key=attrgetter("python_ver"), reverse=True)`,
a stable sort, modelled by the stable `List.insertionSort`).
-/
def _get_cached_release_cycle (contents : List (String × Metadata)) : Option (List PythonRelease) :=
  (loadReleases contents).map (fun rs => List.insertionSort relDesc rs)

/-- `packaging.specifiers.Specifier` operators. -/
inductive SpecOp
  | ge
  | gt
  | le
  | lt
  | eq
  | ne
  | compatible
  | arbitrary
deriving DecidableEq

/-- One clause of a `SpecifierSet`: an operator and a version operand. -/
structure Specifier where
  operator : SpecOp
  version : PyVersion
deriving DecidableEq

/--
`Specifier.contains` on release-only versions.  With no epoch / pre / post /
dev / local segments and no wildcards in scope, `packaging`'s semantics reduce
to zero-padded release comparison; `~=` is a lower bound plus equality on the
operand's leading components, `===` compares the literal release tuple.
-/
def specifierContains (s : Specifier) (v : PyVersion) : Bool :=
  match s.operator with
  | .ge => verLe s.version v
  | .le => verLe v s.version
  | .gt => !verLe v s.version
  | .lt => !verLe s.version v
  | .eq => verLe v s.version && verLe s.version v
  | .ne => !(verLe v s.version && verLe s.version v)
  | .compatible =>
    verLe s.version v &&
      decide (cmpRelease (v.release.take (s.version.release.length - 1))
        s.version.release.dropLast = .eq)
  | .arbitrary => decide (v.release = s.version.release)

/-- `SpecifierSet.__contains__`: every clause must admit the version. -/
def specContains (specs : List Specifier) (v : PyVersion) : Bool :=
  specs.all (fun s => specifierContains s v)

/-- `UnsupportedFixError`, plus the `IndexError` that `eol_supported[-1]`
would raise on an empty list. -/
inductive FixError
  | unsupportedFix
  | indexError
deriving DecidableEq

/--
`get_fixed_spec`: only a single `>=` clause is supported; the new lower bound
is the minor version after the last element of `eol_supported`
(`f">={cutoff.major}.{cutoff.minor + 1}"`).
-/
def get_fixed_spec (specs : List Specifier) (eol_supported : List PythonRelease) :
    Except FixError String :=
  if specs.length = 1 then
    match specs.head? with
    | some spec =>
      if spec.operator = SpecOp.ge then
        match eol_supported.getLast? with
        | some cutoff_release =>
          let cutoff := cutoff_release.python_ver
          .ok (">=" ++ toString cutoff.major ++ "." ++ toString (cutoff.minor + 1))
        | none => .error .indexError
      else .error .unsupportedFix
    | none => .error .unsupportedFix
  else .error .unsupportedFix

/--
The EOL overlap computed inside `check_python_support`: the releases of the
cycle admitted by the specifier and EOL per policy, presented ascending by
version (`eol_supported.sort(key=attrgetter("python_ver"))`).
-/
def eol_overlap (specs : List Specifier) (release_cycle : List PythonRelease)
    (use_system_date : Bool) (utc_today : Date) : List PythonRelease :=
  List.insertionSort relAsc
    (release_cycle.filter
      (fun r => specContains specs r.python_ver && r.is_eol use_system_date utc_today))

/--
Observable per-file outcome of `check_python_support`:
* `clean` — plain return, no EOL overlap;
* `eolFound written eol_versions` — `EOLPythonError` raised; its message
  enumerates `eol_versions` (ascending); `written` is the new specifier
  persisted into the TOML file beforehand when `fix` succeeded, `none`
  otherwise;
* `requiresPythonNotFound` — `RequiresPythonNotFoundError` raised;
* `unsupportedFix` / `indexError` — the corresponding exception escaped from
  `get_fixed_spec`.
-/
inductive CheckResult
  | clean
  | eolFound (written : Option String) (eol_versions : List PyVersion)
  | requiresPythonNotFound
  | unsupportedFix
  | indexError
deriving DecidableEq

/--
`check_python_support` on one manifest.  `requires_python` is the parsed
`project.requires-python` specifier set, `none` when the field is missing or
empty (`if not requires_python`).  The release cycle is passed in already
loaded; file I/O stays with the caller.
-/
def check_python_support (requires_python : Option (List Specifier))
    (release_cycle : List PythonRelease) (use_system_date : Bool) (utc_today : Date)
    (fix : Bool) : CheckResult :=
  match requires_python with
  | none => .requiresPythonNotFound
  | some package_spec =>
    let eol_supported := release_cycle.filter
      (fun r => specContains package_spec r.python_ver && r.is_eol use_system_date utc_today)
    if eol_supported = [] then .clean
    else
      let sorted_eol := List.insertionSort relAsc eol_supported
      if fix then
        match get_fixed_spec package_spec sorted_eol with
        | .ok new_spec => .eolFound (some new_spec) (sorted_eol.map (·.python_ver))
        | .error .unsupportedFix => .unsupportedFix
        | .error .indexError => .indexError
      else .eolFound none (sorted_eol.map (·.python_ver))

/--
What `main` produces on a list of files: how many loop iterations completed,
whether an exception escaped the loop uncaught (aborting the remaining
files), and the exit code accumulated so far.
-/
structure MainResult where
  processed : Nat
  uncaught : Option FixError
  ec : Nat
deriving DecidableEq

/--
The loop of `main`: per file, `EOLPythonError` and
`RequiresPythonNotFoundError` are caught (printing a line and setting
`ec = 1`); any other exception — in particular `UnsupportedFixError` —
is not caught and aborts the loop.
-/
def main (files : List (Option (List Specifier))) (release_cycle : List PythonRelease)
    (use_system_date : Bool) (utc_today : Date) (fix : Bool) (ec : Nat) : MainResult :=
  match files with
  | [] => ⟨0, none, ec⟩
  | f :: rest =>
    match check_python_support f release_cycle use_system_date utc_today fix with
    | .clean =>
      let m := main rest release_cycle use_system_date utc_today fix ec
      ⟨m.processed + 1, m.uncaught, m.ec⟩
    | .eolFound _ _ =>
      let m := main rest release_cycle use_system_date utc_today fix 1
      ⟨m.processed + 1, m.uncaught, m.ec⟩
    | .requiresPythonNotFound =>
      let m := main rest release_cycle use_system_date utc_today fix 1
      ⟨m.processed + 1, m.uncaught, m.ec⟩
    | .unsupportedFix => ⟨0, some .unsupportedFix, ec⟩
    | .indexError => ⟨0, some .indexError, ec⟩

/-! ## Helper lemmas -/

theorem insertionSort_ne_nil (r : PythonRelease → PythonRelease → Prop) [DecidableRel r]
    {l : List PythonRelease} (h : l ≠ []) : List.insertionSort r l ≠ [] := by
  intro hnil
  have hlen := (List.perm_insertionSort r l).length_eq
  rw [hnil] at hlen
  simp only [List.length_nil] at hlen
  exact h (List.eq_nil_of_length_eq_zero hlen.symm)

/-- Evaluation of `get_fixed_spec` on the supported shape: a single `>=`
clause and a non-empty overlap. -/
theorem get_fixed_spec_single_ge (v : PyVersion) (eol_supported : List PythonRelease)
    (hne : eol_supported ≠ []) :
    get_fixed_spec [⟨SpecOp.ge, v⟩] eol_supported =
      .ok (">=" ++ toString (eol_supported.getLast hne).python_ver.major ++ "." ++
        toString ((eol_supported.getLast hne).python_ver.minor + 1)) := by
  unfold get_fixed_spec
  rw [List.getLast?_eq_getLast eol_supported hne]
  simp

/-! ## Claims -/

/--
**C1.**  `is_eol` returns true for a release whose phase is end-of-life,
regardless of `use_system_date` and of the stored EOL date; otherwise, with
`use_system_date` set, it returns true iff the stored EOL date is on or
before the current UTC date; otherwise it returns false.
-/
theorem claim_C1 (r : PythonRelease) (u : Bool) (today : Date) :
    r.is_eol u today = true ↔
      (r.status = ReleasePhase.eol ∨ (u = true ∧ dateLe r.end_of_life today = true)) := by
  unfold PythonRelease.is_eol
  by_cases hs : r.status = ReleasePhase.eol
  · simp [hs]
  · cases u <;> by_cases hd : dateLe r.end_of_life today = true <;> simp [hs, hd]

/--
**C2.**  On a specifier consisting of exactly one `>=` clause and a non-empty
ascending EOL overlap, `get_fixed_spec` returns `">=M.(N+1)"` where `M`/`N`
are major/minor of the overlap's last (highest) element.
-/
theorem claim_C2 (v : PyVersion) (specs : List Specifier) (eol_supported : List PythonRelease)
    (hspec : specs = [⟨SpecOp.ge, v⟩]) (hne : eol_supported ≠ [])
    (_hasc : List.Pairwise relAsc eol_supported) :
    get_fixed_spec specs eol_supported =
      .ok (">=" ++ toString (eol_supported.getLast hne).python_ver.major ++ "." ++
        toString ((eol_supported.getLast hne).python_ver.minor + 1)) := by
  subst hspec
  exact get_fixed_spec_single_ge v eol_supported hne

/-- Sample release: Python 3.8, end-of-life phase. -/
def rel38 : PythonRelease := ⟨⟨[3, 8]⟩, ReleasePhase.eol, ⟨2024, 10, 7⟩⟩

/-- Sample release: Python 3.9, end-of-life phase. -/
def rel39 : PythonRelease := ⟨⟨[3, 9]⟩, ReleasePhase.eol, ⟨2025, 10, 1⟩⟩

/-- Witness for C2: specifier `">=3.8"`, overlap `[3.8, 3.9]`, repaired to
`">=3.10"`. -/
theorem claim_C2_witness :
    get_fixed_spec [⟨SpecOp.ge, ⟨[3, 8]⟩⟩] [rel38, rel39] = .ok ">=3.10" := by
  have h := claim_C2 ⟨[3, 8]⟩ [⟨SpecOp.ge, ⟨[3, 8]⟩⟩] [rel38, rel39] rfl
    (by simp) (by decide)
  exact h.trans (by rfl)

/--
**C3.**  Given a non-empty overlap, `get_fixed_spec` raises
`UnsupportedFixError` exactly when the specifier is not a single `>=` clause.
-/
theorem claim_C3 (specs : List Specifier) (eol_supported : List PythonRelease)
    (hne : eol_supported ≠ []) :
    get_fixed_spec specs eol_supported = .error FixError.unsupportedFix ↔
      ¬ ∃ v, specs = [⟨SpecOp.ge, v⟩] := by
  constructor
  · rintro herr ⟨v, rfl⟩
    rw [get_fixed_spec_single_ge v eol_supported hne] at herr
    exact Except.noConfusion herr
  · intro hshape
    rcases specs with _ | ⟨⟨op, v⟩, rest⟩
    · simp [get_fixed_spec]
    · rcases rest with _ | ⟨s2, rest'⟩
      · cases op
        case ge => exact absurd ⟨v, rfl⟩ hshape
        all_goals simp [get_fixed_spec]
      · simp [get_fixed_spec]

/-- Witness for C3: the multi-clause specifier `">=3.8,<4.0"` and the single
clause `"==3.8"` are both rejected. -/
theorem claim_C3_witness :
    get_fixed_spec [⟨SpecOp.ge, ⟨[3, 8]⟩⟩, ⟨SpecOp.lt, ⟨[4, 0]⟩⟩] [rel38] =
        .error FixError.unsupportedFix ∧
      get_fixed_spec [⟨SpecOp.eq, ⟨[3, 8]⟩⟩] [rel38] = .error FixError.unsupportedFix := by
  constructor
  · exact (claim_C3 _ [rel38] (by simp)).mpr (by rintro ⟨v, hv⟩; simp at hv)
  · exact (claim_C3 _ [rel38] (by simp)).mpr (by rintro ⟨v, hv⟩; simp at hv)

/--
**C10.**  `eol_supported[-1]` is guarded by the callers: on any non-empty
overlap `get_fixed_spec` never reaches its out-of-bounds branch, and
`check_python_support` (which returns early on an empty overlap before
attempting a fix) can never produce the `indexError` outcome.
-/
theorem claim_C10 :
    (∀ specs eol_supported, eol_supported ≠ [] →
        get_fixed_spec specs eol_supported ≠ .error FixError.indexError) ∧
      (∀ rq rels u today fix,
        check_python_support rq rels u today fix ≠ CheckResult.indexError) := by
  have hfix : ∀ (specs : List Specifier) (eol_supported : List PythonRelease),
      eol_supported ≠ [] →
      get_fixed_spec specs eol_supported ≠ .error FixError.indexError := by
    intro specs eol hne
    rcases specs with _ | ⟨s, rest⟩
    · simp [get_fixed_spec]
    · rcases rest with _ | ⟨s2, rest'⟩
      · by_cases hop : s.operator = SpecOp.ge
        · unfold get_fixed_spec
          rw [List.getLast?_eq_getLast eol hne]
          simp [hop]
        · simp [get_fixed_spec, hop]
      · simp [get_fixed_spec]
  refine ⟨hfix, ?_⟩
  intro rq rels u today fix
  cases rq with
  | none => simp [check_python_support]
  | some specs =>
    unfold check_python_support
    by_cases hempty : rels.filter
        (fun r => specContains specs r.python_ver && r.is_eol u today) = []
    · simp [hempty]
    · simp only [if_neg hempty]
      have hsne : List.insertionSort relAsc
          (rels.filter (fun r => specContains specs r.python_ver && r.is_eol u today)) ≠ [] :=
        insertionSort_ne_nil relAsc hempty
      cases fix
      · simp
      · simp only [if_pos rfl]
        cases hg : get_fixed_spec specs (List.insertionSort relAsc
            (rels.filter (fun r => specContains specs r.python_ver && r.is_eol u today))) with
        | ok s => simp
        | error e =>
          cases e
          · simp
          · exact absurd hg (hfix _ _ hsne)

/-- Witness for C10: a concrete non-empty overlap goes through the fix path
without an out-of-bounds access. -/
theorem claim_C10_witness :
    get_fixed_spec [⟨SpecOp.eq, ⟨[3, 8]⟩⟩] [rel38] ≠ .error FixError.indexError ∧
      check_python_support (some [⟨SpecOp.ge, ⟨[3, 8]⟩⟩]) [rel38, rel39] false ⟨2026, 1, 1⟩ true ≠
        CheckResult.indexError :=
  ⟨claim_C10.1 _ [rel38] (by simp), claim_C10.2 _ _ _ _ _⟩

/--
**C4.**  The computed EOL overlap holds exactly the releases of the cycle
admitted by the specifier's containment test and EOL per policy; it is sorted
ascending by version; and it is empty exactly when no covered release is EOL.
-/
theorem claim_C4 (specs : List Specifier) (rels : List PythonRelease) (u : Bool) (today : Date) :
    (∀ r, r ∈ eol_overlap specs rels u today ↔
        (r ∈ rels ∧ specContains specs r.python_ver = true ∧ r.is_eol u today = true)) ∧
      List.Sorted relAsc (eol_overlap specs rels u today) ∧
      (eol_overlap specs rels u today = [] ↔
        ∀ r ∈ rels, ¬ (specContains specs r.python_ver = true ∧ r.is_eol u today = true)) := by
  refine ⟨?_, List.sorted_insertionSort relAsc _, ?_⟩
  · intro r
    unfold eol_overlap
    rw [List.mem_insertionSort, List.mem_filter]
    simp [Bool.and_eq_true, and_assoc]
  · unfold eol_overlap
    constructor
    · intro h r hr hcond
      have hmem : r ∈ List.insertionSort relAsc (rels.filter
          (fun r => specContains specs r.python_ver && r.is_eol u today)) := by
        rw [List.mem_insertionSort, List.mem_filter]
        exact ⟨hr, by simp [hcond.1, hcond.2]⟩
      rw [h] at hmem
      exact absurd hmem (List.not_mem_nil r)
    · intro h
      have hf : rels.filter (fun r => specContains specs r.python_ver && r.is_eol u today) = [] := by
        rw [List.filter_eq_nil_iff]
        intro r hr
        simp only [Bool.and_eq_true]
        intro hc
        exact h r hr ⟨hc.1, hc.2⟩
      rw [hf]
      rfl

/-! ## Date-parser lemmas (claim C5) -/

/-- The ASCII digit character for a value `0`–`9`. -/
def digitChar (n : Nat) : Char := Char.ofNat (48 + n)

/-- Two-digit zero-padded rendering of `n ≤ 99`. -/
def pad2 (n : Nat) : List Char := [digitChar (n / 10), digitChar (n % 10)]

/-- Four-digit zero-padded rendering of `n ≤ 9999`. -/
def pad4 (n : Nat) : List Char :=
  [digitChar (n / 1000), digitChar (n / 100 % 10), digitChar (n / 10 % 10), digitChar (n % 10)]

/-- The `YYYY-MM-DD` rendering of a date. -/
def fmtYMD (y m d : Nat) : List Char := pad4 y ++ '-' :: (pad2 m ++ '-' :: pad2 d)

theorem digitVal_digitChar {k : Nat} (hk : k ≤ 9) : digitVal (digitChar k) = some k := by
  interval_cases k <;> decide

theorem digitChar_ne_dash {k : Nat} (hk : k ≤ 9) : digitChar k ≠ '-' := by
  interval_cases k <;> decide

theorem pad4_no_dash {n : Nat} (hn : n ≤ 9999) : ∀ c ∈ pad4 n, c ≠ '-' := by
  intro c hc
  simp only [pad4, List.mem_cons, List.not_mem_nil, or_false] at hc
  rcases hc with rfl | rfl | rfl | rfl
  · exact digitChar_ne_dash (by omega)
  · exact digitChar_ne_dash (by omega)
  · exact digitChar_ne_dash (by omega)
  · exact digitChar_ne_dash (by omega)

theorem pad2_no_dash {n : Nat} (hn : n ≤ 99) : ∀ c ∈ pad2 n, c ≠ '-' := by
  intro c hc
  simp only [pad2, List.mem_cons, List.not_mem_nil, or_false] at hc
  rcases hc with rfl | rfl
  · exact digitChar_ne_dash (by omega)
  · exact digitChar_ne_dash (by omega)

theorem splitDash_no_dash : ∀ (s : List Char), (∀ c ∈ s, c ≠ '-') → splitDash s = [s]
  | [], _ => rfl
  | c :: cs, h => by
    have hc : c ≠ '-' := h c (List.mem_cons_self c cs)
    have ih := splitDash_no_dash cs (fun x hx => h x (List.mem_cons_of_mem c hx))
    simp [splitDash, hc, ih]

theorem splitDash_append : ∀ (a b : List Char), (∀ c ∈ a, c ≠ '-') →
    splitDash (a ++ '-' :: b) = a :: splitDash b
  | [], b, _ => by simp [splitDash]
  | c :: cs, b, h => by
    have hc : c ≠ '-' := h c (List.mem_cons_self c cs)
    have ih := splitDash_append cs b (fun x hx => h x (List.mem_cons_of_mem c hx))
    simp [splitDash, hc, ih]

theorem digitVal_ne_dash {c : Char} {k : Nat} (h : digitVal c = some k) : c ≠ '-' := by
  rintro rfl
  have h0 : digitVal '-' = none := by decide
  rw [h0] at h
  exact Option.noConfusion h

theorem parseDigitsAux_no_dash : ∀ (cs : List Char) (acc v : Nat),
    parseDigitsAux cs acc = some v → ∀ c ∈ cs, c ≠ '-'
  | [], _, _, _ => by
    intro c hc
    exact absurd hc (List.not_mem_nil c)
  | c :: cs, acc, v, h => by
    intro x hx
    unfold parseDigitsAux at h
    cases hd : digitVal c with
    | none =>
      rw [hd] at h
      exact Option.noConfusion h
    | some d =>
      rw [hd] at h
      rcases List.mem_cons.mp hx with rfl | hx'
      · exact digitVal_ne_dash hd
      · exact parseDigitsAux_no_dash cs _ v h x hx'

theorem parseDigits_no_dash {cs : List Char} {v : Nat} (h : parseDigits cs = some v) :
    ∀ c ∈ cs, c ≠ '-' := by
  cases cs with
  | nil => exact fun c hc => absurd hc (List.not_mem_nil c)
  | cons c cs' => exact parseDigitsAux_no_dash (c :: cs') 0 v h

/-- `_parse_eol_date` on a string splitting into two parts parses
`int` year / `int` month and builds the first of the month. -/
theorem parse_eol_date_two {l p1 p2 : List Char} (h : splitDash l = [p1, p2]) :
    _parse_eol_date (String.mk l) =
      (match parseDigits p1, parseDigits p2 with
       | some year, some month =>
         if isValidDate year month 1 then some ⟨year, month, 1⟩ else none
       | _, _ => none) := by
  unfold _parse_eol_date
  have htl : (String.mk l).toList = l := rfl
  rw [htl, h]

/-- `_parse_eol_date` on a string splitting into three parts is `fromISO`. -/
theorem parse_eol_date_three {l a b c : List Char} (h : splitDash l = [a, b, c]) :
    _parse_eol_date (String.mk l) = fromISO l := by
  unfold _parse_eol_date
  have htl : (String.mk l).toList = l := rfl
  rw [htl, h]

/-- `fromISO` on a rendered `YYYY-MM-DD` recovers exactly the rendered date,
subject to the `datetime.date` validity check. -/
theorem fromISO_fmtYMD (y m d : Nat) (hy : y ≤ 9999) (hm : m ≤ 99) (hd : d ≤ 99) :
    fromISO (fmtYMD y m d) = (if isValidDate y m d then some ⟨y, m, d⟩ else none) := by
  have e1 : digitVal (digitChar (y / 1000)) = some (y / 1000) := digitVal_digitChar (by omega)
  have e2 : digitVal (digitChar (y / 100 % 10)) = some (y / 100 % 10) := digitVal_digitChar (by omega)
  have e3 : digitVal (digitChar (y / 10 % 10)) = some (y / 10 % 10) := digitVal_digitChar (by omega)
  have e4 : digitVal (digitChar (y % 10)) = some (y % 10) := digitVal_digitChar (by omega)
  have e5 : digitVal (digitChar (m / 10)) = some (m / 10) := digitVal_digitChar (by omega)
  have e6 : digitVal (digitChar (m % 10)) = some (m % 10) := digitVal_digitChar (by omega)
  have e7 : digitVal (digitChar (d / 10)) = some (d / 10) := digitVal_digitChar (by omega)
  have e8 : digitVal (digitChar (d % 10)) = some (d % 10) := digitVal_digitChar (by omega)
  have hy' : 1000 * (y / 1000) + 100 * (y / 100 % 10) + 10 * (y / 10 % 10) + y % 10 = y := by
    omega
  have hm' : 10 * (m / 10) + m % 10 = m := by omega
  have hd' : 10 * (d / 10) + d % 10 = d := by omega
  simp only [fmtYMD, pad4, pad2, List.cons_append, List.nil_append, fromISO,
    if_pos (And.intro rfl rfl), e1, e2, e3, e4, e5, e6, e7, e8, hy', hm', hd', and_self,
    if_true, true_and]

/--
Stated from the spec's words, for comparison with the code: a string of shape
`YYYY-MM-DD` — four digits, a dash, two digits, a dash, two digits.
-/
def shapeYMD (s : List Char) : Bool :=
  match s with
  | [y1, y2, y3, y4, s1, m1, m2, s2, d1, d2] =>
    y1.isDigit && y2.isDigit && y3.isDigit && y4.isDigit && (s1 == '-') &&
      m1.isDigit && m2.isDigit && (s2 == '-') && d1.isDigit && d2.isDigit
  | _ => false

/--
Stated from the spec's words, for comparison with the code: a string of shape
`YYYY-MM` — four digits, a dash, two digits.
-/
def shapeYM (s : List Char) : Bool :=
  match s with
  | [y1, y2, y3, y4, s1, m1, m2] =>
    y1.isDigit && y2.isDigit && y3.isDigit && y4.isDigit && (s1 == '-') &&
      m1.isDigit && m2.isDigit
  | _ => false

/--
**C5 counterexample.**  The claim says every string that is not of shape
`YYYY-MM-DD` or `YYYY-MM` fails with a `MalformedDateError`; but `"2023-6"`
(month not zero-padded, so of neither shape) parses successfully to
June 1, 2023, because the two-part branch feeds the parts to `int(...)`
without any padding check.
-/
theorem claim_C5_counterexample :
    shapeYMD "2023-6".toList = false ∧ shapeYM "2023-6".toList = false ∧
      _parse_eol_date "2023-6" = some ⟨2023, 6, 1⟩ := by
  refine ⟨rfl, rfl, ?_⟩
  decide

/--
**C5 (amended).**  A string of shape `YYYY-MM-DD` denoting a valid calendar
date parses to exactly that date; a string that splits on `"-"` into exactly
two integer-parseable parts giving a valid year and month — zero-padding not
required — parses to day 1 of that year and month; a string that does not
split on `"-"` into exactly two or three parts (e.g. `"2023"`, `"garbage"`)
fails with a `MalformedDateError`.
-/
theorem claim_C5 :
    (∀ y m d, isValidDate y m d = true →
        _parse_eol_date (String.mk (fmtYMD y m d)) = some ⟨y, m, d⟩) ∧
      (∀ p1 p2 year month, parseDigits p1 = some year → parseDigits p2 = some month →
        isValidDate year month 1 = true →
        _parse_eol_date (String.mk (p1 ++ '-' :: p2)) = some ⟨year, month, 1⟩) ∧
      (∀ s : String, (splitDash s.toList).length ≠ 2 → (splitDash s.toList).length ≠ 3 →
        _parse_eol_date s = none) ∧
      _parse_eol_date "2023" = none ∧ _parse_eol_date "garbage" = none := by
  refine ⟨?_, ?_, ?_, by decide, by decide⟩
  · intro y m d hvalid
    have hb := hvalid
    simp only [isValidDate, Bool.and_eq_true, decide_eq_true_eq] at hb
    obtain ⟨⟨⟨⟨⟨hy1, hy2⟩, hm1⟩, hm2⟩, hd1⟩, hd2⟩ := hb
    have hd31 : d ≤ 31 := le_trans hd2 (by unfold daysInMonth; split_ifs <;> omega)
    have hsplit : splitDash (fmtYMD y m d) = [pad4 y, pad2 m, pad2 d] := by
      unfold fmtYMD
      rw [splitDash_append (pad4 y) _ (pad4_no_dash hy2),
        splitDash_append (pad2 m) _ (pad2_no_dash (by omega)),
        splitDash_no_dash (pad2 d) (pad2_no_dash (by omega))]
    rw [parse_eol_date_three hsplit, fromISO_fmtYMD y m d hy2 (by omega) (by omega),
      if_pos hvalid]
  · intro p1 p2 year month hp1 hp2 hvalid
    have hsplit : splitDash (p1 ++ '-' :: p2) = [p1, p2] := by
      rw [splitDash_append p1 _ (parseDigits_no_dash hp1),
        splitDash_no_dash p2 (parseDigits_no_dash hp2)]
    rw [parse_eol_date_two hsplit, hp1, hp2]
    simp [hvalid]
  · intro s h2 h3
    unfold _parse_eol_date
    rcases hp : splitDash s.toList with _ | ⟨a, _ | ⟨b, _ | ⟨c, _ | ⟨d, t⟩⟩⟩⟩
    · rfl
    · rfl
    · exact absurd (by rw [hp]; rfl) h2
    · exact absurd (by rw [hp]; rfl) h3
    · rfl

/-- Witness for C5: `"2023-06-27"` parses to June 27, 2023 (first
conjunct), and `"2023-06"` parses to June 1, 2023 (second conjunct). -/
theorem claim_C5_witness :
    _parse_eol_date (String.mk (fmtYMD 2023 6 27)) = some ⟨2023, 6, 27⟩ ∧
      _parse_eol_date (String.mk ("2023".toList ++ '-' :: "06".toList)) = some ⟨2023, 6, 1⟩ :=
  ⟨claim_C5.1 2023 6 27 (by decide),
    claim_C5.2.1 "2023".toList "06".toList 2023 6 (by decide) (by decide) (by decide)⟩

/-! ## Loader lemmas (claims C6, C8) -/

theorem from_json_isSome_iff (v : String) (m : Metadata) :
    (PythonRelease.from_json v m).isSome = true ↔
      (parseVersion v).isSome = true ∧ (parsePhase m.status).isSome = true ∧
        (_parse_eol_date m.end_of_life).isSome = true := by
  unfold PythonRelease.from_json
  cases parseVersion v <;> cases parsePhase m.status <;>
    cases _parse_eol_date m.end_of_life <;> simp

theorem loadReleases_isSome_iff : ∀ l : List (String × Metadata),
    (loadReleases l).isSome = true ↔
      ∀ e ∈ l, (PythonRelease.from_json e.1 e.2).isSome = true
  | [] => by simp [loadReleases]
  | (v, m) :: rest => by
    have ih := loadReleases_isSome_iff rest
    simp only [loadReleases, List.mem_cons]
    cases hj : PythonRelease.from_json v m with
    | none => simp [hj]
    | some r =>
      cases hl : loadReleases rest with
      | none =>
        rw [hl] at ih
        simp only [Option.isSome_none, Bool.false_eq_true, false_iff, not_forall] at ih
        simp only [Option.isSome_none, Bool.false_eq_true, false_iff, not_forall]
        obtain ⟨e, he, hbad⟩ := ih
        exact ⟨e, Or.inr he, hbad⟩
      | some rs =>
        rw [hl] at ih
        simp only [Option.isSome_some, true_iff] at ih
        simp only [Option.isSome_some, true_iff]
        rintro e (rfl | he)
        · simp [hj]
        · exact ih e he

theorem loadReleases_length : ∀ (l : List (String × Metadata)) (rs : List PythonRelease),
    loadReleases l = some rs → rs.length = l.length
  | [], rs, h => by
    simp only [loadReleases, Option.some.injEq] at h
    simp [← h]
  | (v, m) :: rest, rs, h => by
    simp only [loadReleases] at h
    cases hj : PythonRelease.from_json v m with
    | none => rw [hj] at h; exact Option.noConfusion h
    | some r =>
      rw [hj] at h
      cases hl : loadReleases rest with
      | none => rw [hl] at h; exact Option.noConfusion h
      | some rs' =>
        rw [hl] at h
        simp only [Option.some.injEq] at h
        subst h
        simp [loadReleases_length rest rs' hl]

/--
**C6.**  Over dataset mappings whose keys are version strings (§6 of the
spec: the interface supplies version-string keys, modelled as
`(parseVersion e.1).isSome`): if any entry has an unknown phase string or an
unparseable EOL date, the whole load fails and no releases are returned;
otherwise the load succeeds with one release per entry.
-/
theorem claim_C6 (contents : List (String × Metadata))
    (hkeys : ∀ e ∈ contents, (parseVersion e.1).isSome = true) :
    ((∃ e ∈ contents, parsePhase e.2.status = none ∨ _parse_eol_date e.2.end_of_life = none) →
        _get_cached_release_cycle contents = none) ∧
      ((∀ e ∈ contents, (parsePhase e.2.status).isSome = true ∧
          (_parse_eol_date e.2.end_of_life).isSome = true) →
        ∃ rs, _get_cached_release_cycle contents = some rs ∧ rs.length = contents.length) := by
  constructor
  · rintro ⟨e, he, hbad⟩
    unfold _get_cached_release_cycle
    cases hl : loadReleases contents with
    | none => rfl
    | some base =>
      exfalso
      have hall := (loadReleases_isSome_iff contents).mp (by simp [hl])
      have hsome := (from_json_isSome_iff e.1 e.2).mp (hall e he)
      rcases hbad with hb | hb
      · rw [hb] at hsome
        simp at hsome
      · rw [hb] at hsome
        simp at hsome
  · intro hgood
    have hall : ∀ e ∈ contents, (PythonRelease.from_json e.1 e.2).isSome = true := by
      intro e he
      exact (from_json_isSome_iff e.1 e.2).mpr ⟨hkeys e he, (hgood e he).1, (hgood e he).2⟩
    have hsome := (loadReleases_isSome_iff contents).mpr hall
    cases hl : loadReleases contents with
    | none => rw [hl] at hsome; exact Bool.noConfusion hsome
    | some base =>
      refine ⟨List.insertionSort relDesc base, ?_, ?_⟩
      · unfold _get_cached_release_cycle
        rw [hl]
        rfl
      · rw [(List.perm_insertionSort relDesc base).length_eq]
        exact loadReleases_length contents base hl

/-- Witness for C6: a well-formed one-entry dataset loads to exactly one
release. -/
theorem claim_C6_witness :
    ∃ rs, _get_cached_release_cycle [("3.8", ⟨"end-of-life", "2020-10"⟩)] = some rs ∧
      rs.length = 1 :=
  (claim_C6 [("3.8", ⟨"end-of-life", "2020-10"⟩)] (by decide)).2 (by decide)

/-- A sorted-descending pair that is not equivalent is strictly descending. -/
theorem verCmp_gt_of {a b : PyVersion} (h1 : verLe b a = true) (h2 : verCmp a b ≠ .eq) :
    verCmp a b = .gt := by
  rw [verLe_iff] at h1
  have hsw := cmpRelease_swap a.release b.release
  unfold verCmp at h1 h2 ⊢
  cases h : cmpRelease a.release b.release with
  | lt =>
    rw [h] at hsw
    exact absurd hsw.symm (by simpa [Ordering.swap] using h1)
  | eq => exact absurd h h2
  | gt => rfl

/-- The dataset with two distinct keys denoting the same version. -/
def src38 : List (String × Metadata) :=
  [("3.8", ⟨"end-of-life", "2020-10"⟩), ("3.8.0", ⟨"end-of-life", "2020-10"⟩)]

/-- The release parsed from the `"3.8"` entry of `src38`. -/
def R38 : PythonRelease := ⟨⟨[3, 8]⟩, ReleasePhase.eol, ⟨2020, 10, 1⟩⟩

/-- The release parsed from the `"3.8.0"` entry of `src38`. -/
def R380 : PythonRelease := ⟨⟨[3, 8, 0]⟩, ReleasePhase.eol, ⟨2020, 10, 1⟩⟩

/--
**C8 counterexample.**  The loader does not deduplicate: the mapping with the
two distinct keys `"3.8"` and `"3.8.0"` — which denote equal versions under
version-precedence — loads successfully to two releases whose versions
compare equal, so the result is neither strictly decreasing nor free of
duplicate versions.
-/
theorem claim_C8_counterexample :
    _get_cached_release_cycle src38 = some [R38, R380] ∧
      ¬ List.Pairwise (fun a b => verCmp a.python_ver b.python_ver = Ordering.gt)
        [R38, R380] ∧
      verCmp R38.python_ver R380.python_ver = Ordering.eq := by
  refine ⟨by decide, ?_, by decide⟩
  intro hp
  have := List.rel_of_pairwise_cons hp (List.mem_singleton.mpr rfl)
  exact absurd this (by decide)

/--
**C8 (amended).**  Every successfully loaded release sequence is sorted
descending (non-strictly) by version-precedence, whether or not the source
was ordered; it is strictly decreasing — equivalently, duplicate-free — as
soon as its entries' versions are pairwise inequivalent (as is the case for
the real dataset, whose keys are distinct `major.minor` strings).
-/
theorem claim_C8 (contents : List (String × Metadata)) (rs : List PythonRelease)
    (h : _get_cached_release_cycle contents = some rs) :
    List.Sorted relDesc rs ∧
      (List.Pairwise (fun a b => verCmp a.python_ver b.python_ver ≠ Ordering.eq) rs →
        List.Pairwise (fun a b => verCmp a.python_ver b.python_ver = Ordering.gt) rs) := by
  have hform : ∃ base, loadReleases contents = some base ∧
      rs = List.insertionSort relDesc base := by
    unfold _get_cached_release_cycle at h
    cases hl : loadReleases contents with
    | none => rw [hl] at h; exact Option.noConfusion h
    | some base =>
      rw [hl] at h
      simp only [Option.map_some', Option.some.injEq] at h
      exact ⟨base, rfl, h.symm⟩
  obtain ⟨base, hbase, rfl⟩ := hform
  have hsorted : List.Sorted relDesc (List.insertionSort relDesc base) :=
    List.sorted_insertionSort relDesc base
  refine ⟨hsorted, ?_⟩
  intro hne
  have hboth := List.Pairwise.and hsorted hne
  exact hboth.imp (fun hab => verCmp_gt_of hab.1 hab.2)

/-- Witness for C8: the duplicate-version dataset still loads sorted
(non-strictly) descending. -/
theorem claim_C8_witness : List.Sorted relDesc [R38, R380] :=
  (claim_C8 src38 [R38, R380] (by decide)).1

/-- Evaluation of `check_python_support` past the early return: with a
non-empty overlap it sorts ascending and branches on `fix`. -/
theorem check_python_support_eol (specs : List Specifier) (rels : List PythonRelease)
    (u : Bool) (today : Date) (fix : Bool)
    (hfilt : rels.filter (fun r => specContains specs r.python_ver && r.is_eol u today) ≠ []) :
    check_python_support (some specs) rels u today fix =
      (if fix then
        match get_fixed_spec specs (List.insertionSort relAsc
            (rels.filter (fun r => specContains specs r.python_ver && r.is_eol u today))) with
        | .ok new_spec =>
          CheckResult.eolFound (some new_spec)
            ((List.insertionSort relAsc
              (rels.filter (fun r => specContains specs r.python_ver && r.is_eol u today))).map
              (fun r => r.python_ver))
        | .error .unsupportedFix => CheckResult.unsupportedFix
        | .error .indexError => CheckResult.indexError
      else
        CheckResult.eolFound none
          ((List.insertionSort relAsc
            (rels.filter (fun r => specContains specs r.python_ver && r.is_eol u today))).map
            (fun r => r.python_ver))) := by
  simp only [check_python_support]
  rw [if_neg hfilt]

/--
**C9.**  On a manifest whose single-`>=`-clause specifier has a non-empty EOL
overlap, requesting a fix yields the fixed outcome — the new specifier was
written and the ascending EOL version list is carried — while without a fix
request the same versions surface as a plain violation; the two outcomes, and
the clean and lookup-error outcomes, are mutually distinguishable.
-/
theorem claim_C9 (v : PyVersion) (specs : List Specifier) (rels : List PythonRelease)
    (u : Bool) (today : Date)
    (hspec : specs = [⟨SpecOp.ge, v⟩])
    (hne : eol_overlap specs rels u today ≠ []) :
    ∃ new_spec vers,
      check_python_support (some specs) rels u today true =
          CheckResult.eolFound (some new_spec) vers ∧
        check_python_support (some specs) rels u today false =
          CheckResult.eolFound none vers ∧
        List.Pairwise (fun a b => verLe a b = true) vers ∧
        CheckResult.eolFound (some new_spec) vers ≠ CheckResult.eolFound none vers ∧
        CheckResult.eolFound (some new_spec) vers ≠ CheckResult.clean ∧
        CheckResult.eolFound (some new_spec) vers ≠ CheckResult.requiresPythonNotFound := by
  subst hspec
  have hfilt : rels.filter
      (fun r => specContains [⟨SpecOp.ge, v⟩] r.python_ver && r.is_eol u today) ≠ [] := by
    intro h0
    apply hne
    unfold eol_overlap
    rw [h0]
    rfl
  have hsne : List.insertionSort relAsc (rels.filter
      (fun r => specContains [⟨SpecOp.ge, v⟩] r.python_ver && r.is_eol u today)) ≠ [] :=
    insertionSort_ne_nil relAsc hfilt
  have hfix := get_fixed_spec_single_ge v _ hsne
  refine ⟨">=" ++ toString ((List.insertionSort relAsc (rels.filter
        (fun r => specContains [⟨SpecOp.ge, v⟩] r.python_ver && r.is_eol u today))).getLast
        hsne).python_ver.major ++ "." ++
      toString (((List.insertionSort relAsc (rels.filter
        (fun r => specContains [⟨SpecOp.ge, v⟩] r.python_ver && r.is_eol u today))).getLast
        hsne).python_ver.minor + 1),
    (List.insertionSort relAsc (rels.filter
      (fun r => specContains [⟨SpecOp.ge, v⟩] r.python_ver && r.is_eol u today))).map
      (fun r => r.python_ver), ?_, ?_, ?_, ?_, ?_, ?_⟩
  · exact (check_python_support_eol _ rels u today true hfilt).trans (by rw [hfix]; rfl)
  · exact (check_python_support_eol _ rels u today false hfilt).trans (by rfl)
  · exact (List.sorted_insertionSort relAsc _).map _ (fun a b h => h)
  · intro hcontra
    simp at hcontra
  · intro hcontra
    exact CheckResult.noConfusion hcontra
  · intro hcontra
    exact CheckResult.noConfusion hcontra

/-- Witness for C9: specifier `">=3.8"` over the releases 3.8 and 3.9 (both
EOL) yields the fixed and violation outcomes as claimed. -/
theorem claim_C9_witness :
    ∃ new_spec vers,
      check_python_support (some [⟨SpecOp.ge, ⟨[3, 8]⟩⟩]) [rel38, rel39] false ⟨2026, 1, 1⟩ true =
          CheckResult.eolFound (some new_spec) vers ∧
        check_python_support (some [⟨SpecOp.ge, ⟨[3, 8]⟩⟩]) [rel38, rel39] false ⟨2026, 1, 1⟩
            false = CheckResult.eolFound none vers ∧
        List.Pairwise (fun a b => verLe a b = true) vers ∧
        CheckResult.eolFound (some new_spec) vers ≠ CheckResult.eolFound none vers ∧
        CheckResult.eolFound (some new_spec) vers ≠ CheckResult.clean ∧
        CheckResult.eolFound (some new_spec) vers ≠ CheckResult.requiresPythonNotFound :=
  claim_C9 ⟨[3, 8]⟩ [⟨SpecOp.ge, ⟨[3, 8]⟩⟩] [rel38, rel39] false ⟨2026, 1, 1⟩ rfl (by decide)

/-! ## Orchestration lemmas (claim C7) -/

/-- When no file raises an uncaught exception, the loop of `main` catches
every error per file and completes all iterations. -/
theorem main_all_caught : ∀ (files : List (Option (List Specifier)))
    (rels : List PythonRelease) (u : Bool) (today : Date) (fix : Bool) (ec : Nat),
    (∀ f ∈ files, check_python_support f rels u today fix ≠ CheckResult.unsupportedFix ∧
      check_python_support f rels u today fix ≠ CheckResult.indexError) →
    (main files rels u today fix ec).uncaught = none ∧
      (main files rels u today fix ec).processed = files.length
  | [], _, _, _, _, _, _ => ⟨rfl, rfl⟩
  | f :: rest, rels, u, today, fix, ec, h => by
    have hf := h f (List.mem_cons_self f rest)
    have hrest := fun g hg => h g (List.mem_cons_of_mem f hg)
    unfold main
    cases hc : check_python_support f rels u today fix with
    | clean =>
      have ih := main_all_caught rest rels u today fix ec hrest
      simp [ih.1, ih.2]
    | eolFound w vs =>
      have ih := main_all_caught rest rels u today fix 1 hrest
      simp [ih.1, ih.2]
    | requiresPythonNotFound =>
      have ih := main_all_caught rest rels u today fix 1 hrest
      simp [ih.1, ih.2]
    | unsupportedFix => exact absurd hc hf.1
    | indexError => exact absurd hc hf.2

/-- An `UnsupportedFixError` escapes the loop of `main`: the remaining files
are never processed. -/
theorem main_abort : ∀ (pre : List (Option (List Specifier))) (f : Option (List Specifier))
    (post : List (Option (List Specifier)))
    (rels : List PythonRelease) (u : Bool) (today : Date) (fix : Bool) (ec : Nat),
    (∀ g ∈ pre, check_python_support g rels u today fix ≠ CheckResult.unsupportedFix ∧
      check_python_support g rels u today fix ≠ CheckResult.indexError) →
    check_python_support f rels u today fix = CheckResult.unsupportedFix →
    (main (pre ++ f :: post) rels u today fix ec).uncaught = some FixError.unsupportedFix ∧
      (main (pre ++ f :: post) rels u today fix ec).processed = pre.length
  | [], f, post, rels, u, today, fix, ec, _, hf => by
    simp only [List.nil_append]
    unfold main
    rw [hf]
    exact ⟨rfl, rfl⟩
  | g :: pre', f, post, rels, u, today, fix, ec, hpre, hf => by
    have hg := hpre g (List.mem_cons_self g pre')
    have hpre' := fun x hx => hpre x (List.mem_cons_of_mem g hx)
    simp only [List.cons_append]
    unfold main
    cases hc : check_python_support g rels u today fix with
    | clean =>
      have ih := main_abort pre' f post rels u today fix ec hpre' hf
      simp [ih.1, ih.2]
    | eolFound w vs =>
      have ih := main_abort pre' f post rels u today fix 1 hpre' hf
      simp [ih.1, ih.2]
    | requiresPythonNotFound =>
      have ih := main_abort pre' f post rels u today fix 1 hpre' hf
      simp [ih.1, ih.2]
    | unsupportedFix => exact absurd hc hg.1
    | indexError => exact absurd hc hg.2

/-- Sample release: Python 3.6, end-of-life phase. -/
def rel36 : PythonRelease := ⟨⟨[3, 6]⟩, ReleasePhase.eol, ⟨2021, 12, 23⟩⟩

/-- A manifest whose specifier is the multi-clause `">=3.5,<4.0"`. -/
def fileMulti : Option (List Specifier) :=
  some [⟨SpecOp.ge, ⟨[3, 5]⟩⟩, ⟨SpecOp.lt, ⟨[4, 0]⟩⟩]

/-- A manifest whose specifier is the single clause `">=3.6"`. -/
def fileGe36 : Option (List Specifier) := some [⟨SpecOp.ge, ⟨[3, 6]⟩⟩]

/--
**C7 counterexample.**  `main` only catches `EOLPythonError` and
`RequiresPythonNotFoundError`; the `UnsupportedFixError` raised when `--fix`
meets the multi-clause specifier of the first file escapes the loop, so the
second file is never processed — refuting the claim that every core error is
caught per file and that one file's failure never aborts the rest.
-/
theorem claim_C7_counterexample :
    ¬ ((main [fileMulti, fileGe36] [rel36] false ⟨2026, 1, 1⟩ true 0).uncaught = none ∧
      (main [fileMulti, fileGe36] [rel36] false ⟨2026, 1, 1⟩ true 0).processed =
        [fileMulti, fileGe36].length) := by
  decide

/--
**C7 (amended).**  `EOLPythonError` and `RequiresPythonNotFoundError` are
caught per file, so when no file triggers an unsupported (or out-of-bounds)
fix, every file is processed and nothing escapes; but a file raising
`UnsupportedFixError` aborts the loop uncaught — the preceding files are
processed, the following ones are not, and the run is still distinguishable
from a pass.
-/
theorem claim_C7 (rels : List PythonRelease) (u : Bool) (today : Date) (fix : Bool) (ec : Nat) :
    (∀ files, (∀ f ∈ files,
        check_python_support f rels u today fix ≠ CheckResult.unsupportedFix ∧
        check_python_support f rels u today fix ≠ CheckResult.indexError) →
      (main files rels u today fix ec).uncaught = none ∧
        (main files rels u today fix ec).processed = files.length) ∧
      (∀ pre f post, (∀ g ∈ pre,
          check_python_support g rels u today fix ≠ CheckResult.unsupportedFix ∧
          check_python_support g rels u today fix ≠ CheckResult.indexError) →
        check_python_support f rels u today fix = CheckResult.unsupportedFix →
        (main (pre ++ f :: post) rels u today fix ec).uncaught =
            some FixError.unsupportedFix ∧
          (main (pre ++ f :: post) rels u today fix ec).processed = pre.length) :=
  ⟨fun files h => main_all_caught files rels u today fix ec h,
    fun pre f post hpre hf => main_abort pre f post rels u today fix ec hpre hf⟩

/-- Witness for C7: a run with only caught errors completes both of its
files; a run hitting `UnsupportedFixError` on its first file processes
nothing further. -/
theorem claim_C7_witness :
    (main [fileGe36] [rel36] false ⟨2026, 1, 1⟩ false 0).uncaught = none ∧
      (main [fileGe36] [rel36] false ⟨2026, 1, 1⟩ false 0).processed = 1 ∧
      (main [fileMulti, fileGe36] [rel36] false ⟨2026, 1, 1⟩ true 0).uncaught =
        some FixError.unsupportedFix ∧
      (main [fileMulti, fileGe36] [rel36] false ⟨2026, 1, 1⟩ true 0).processed = 0 := by
  have h1 := (claim_C7 [rel36] false ⟨2026, 1, 1⟩ false 0).1 [fileGe36] (by decide)
  have h2 := (claim_C7 [rel36] false ⟨2026, 1, 1⟩ true 0).2 [] fileMulti [fileGe36]
    (by simp) (by decide)
  exact ⟨h1.1, h1.2, by simpa using h2.1, by simpa using h2.2⟩
